import Mathlib

/-!
Verification of the docblog repository's metadata-index and HTML-rewriting
logic against its natural-language specification.

The Go source is shallowly embedded: `time.Time` values are modelled at day
precision as `Int` serial numbers (days since the Google-Sheets epoch
1899-12-30, the unit the index sheet itself uses), Go maps are modelled as
association lists with insert-overwrite semantics, and Go runtime panics
(out-of-range slice indexing) are modelled by `Option`, with `none` meaning
the program crashes.
-/

namespace Docblog

/-- Days since 1970-01-01 of the proleptic-Gregorian civil date y-m-d
(Howard Hinnant's `days_from_civil` algorithm, floor division throughout). -/
def daysFromCivil (y m d : Int) : Int :=
  let y2 := if m ≤ 2 then y - 1 else y
  let era := Int.fdiv y2 400
  let yoe := y2 - era * 400
  let mp := if m ≤ 2 then m + 9 else m - 3
  let doy := Int.fdiv (153 * mp + 2) 5 + d - 1
  let doe := yoe * 365 + Int.fdiv yoe 4 - Int.fdiv yoe 100 + doy
  era * 146097 + doe - 719468

/-- Days since 1970-01-01 of `GoogleSheetEpoch0` (1899-12-30), the epoch of
Google-Sheets date serial numbers (drive_service.go). -/
def epochDays : Int := daysFromCivil 1899 12 30

/-- The serial number (days since the sheet epoch) of a civil date. -/
def serialOfCivil (y m d : Int) : Int := daysFromCivil y m d - epochDays

/-- Go's zero `time.Time` (0001-01-01) in the day-serial model; `IsZero`
becomes comparison with this constant. -/
def goTimeZero : Int := serialOfCivil 1 1 1

/-- Model of `time.Time.IsZero`. -/
def timeIsZero (t : Int) : Bool := t == goTimeZero

/-- Model of the `GoogleDocMetadata` struct (drive_service.go), with times at
day precision. Field order follows the Go struct. -/
structure GoogleDocMetadata where
  modifiedTime : Int
  createdTime : Int
  description : String
  id : String
  name : String
deriving Repr, DecidableEq, Inhabited

/-- Embedding of `GoogleDocMetadata.UpdateWith` (drive_service.go): takes the
index record's created time when it is non-zero and its description when it is
non-empty; no other field is touched. -/
def GoogleDocMetadata.updateWith (m1 m2 : GoogleDocMetadata) : GoogleDocMetadata :=
  let r1 := if !timeIsZero m2.createdTime then { m1 with createdTime := m2.createdTime } else m1
  let r2 := if m2.description ≠ "" then { r1 with description := m2.description } else r1
  r2

/-- Go map lookup on the association-list model (first matching key). -/
def mapLookup (idx : List (String × GoogleDocMetadata)) (k : String) :
    Option GoogleDocMetadata :=
  match idx with
  | [] => none
  | p :: rest => if p.1 = k then some p.2 else mapLookup rest k

/-- Go map assignment `m[k] = v`: overwrite the existing entry, else append. -/
def mapInsert (idx : List (String × GoogleDocMetadata)) (k : String)
    (v : GoogleDocMetadata) : List (String × GoogleDocMetadata) :=
  if idx.any (fun p => p.1 = k) then
    idx.map (fun p => if p.1 = k then (k, v) else p)
  else idx ++ [(k, v)]

/-- Embedding of the loop body of `combineIndexAndFilesMetadata` (the older
main): when the index holds a record for this file id, each of the four fields
created time, description, modified time and name is taken from the index
record when non-zero / non-empty. -/
def combineOne (indexMetadata : List (String × GoogleDocMetadata))
    (file : GoogleDocMetadata) : GoogleDocMetadata :=
  match mapLookup indexMetadata file.id with
  | none => file
  | some metadata =>
    let f1 := if !timeIsZero metadata.createdTime then
        { file with createdTime := metadata.createdTime } else file
    let f2 := if metadata.description ≠ "" then
        { f1 with description := metadata.description } else f1
    let f3 := if !timeIsZero metadata.modifiedTime then
        { f2 with modifiedTime := metadata.modifiedTime } else f2
    let f4 := if metadata.name ≠ "" then { f3 with name := metadata.name } else f3
    f4

/-- Embedding of `combineIndexAndFilesMetadata`. -/
def combineIndexAndFilesMetadata (indexMetadata : List (String × GoogleDocMetadata))
    (filesMetadata : List GoogleDocMetadata) : List GoogleDocMetadata :=
  filesMetadata.map (combineOne indexMetadata)

/-- Embedding of the heading case of `HtmlDoc.modifyContent`: tags `h1`..`h6`
are renamed to `h` followed by the digit plus one (the Go code computes
`fmt.Sprintf("h%d", int(node.Data[1]-'0')+1)`); any other tag is untouched. -/
def modifyHeading (tag : String) : String :=
  if tag = "h1" ∨ tag = "h2" ∨ tag = "h3" ∨ tag = "h4" ∨ tag = "h5" ∨ tag = "h6" then
    "h" ++ Nat.repr ((tag.data.getD 1 '0').toNat - '0'.toNat + 1)
  else tag

/-- Embedding of Go `filepath.Base`: empty path gives `.`; trailing slashes
are stripped; the segment after the last `/` is returned; a path of only
slashes gives `/`. -/
def filepathBase (path : String) : String :=
  if path = "" then "." else
    let l := (path.data.reverse.dropWhile (fun c => c = '/')).reverse
    if l = [] then "/" else
      ((l.reverse.takeWhile (fun c => c ≠ '/')).reverse).asString

/-- Embedding of `NormalizedAssetPath` (util.go): `{prefix/}{id}-{base}`. -/
def normalizedAssetPath (assetPathPrefix docId assetRelativePath : String) : String :=
  (if assetPathPrefix ≠ "" then assetPathPrefix ++ "/" else "") ++
    docId ++ "-" ++ filepathBase assetRelativePath

/-- Embedding of the `img` case of `HtmlDoc.modifyContent`: every `src`
attribute is replaced by `/` followed by the normalized asset path. -/
def modifyImgAttrs (assetPathPrefix docId : String)
    (attrs : List (String × String)) : List (String × String) :=
  attrs.map fun a =>
    if a.1 = "src" then (a.1, "/" ++ normalizedAssetPath assetPathPrefix docId a.2) else a

/-! ### Style-attribute rewriting (`colorRegex`, `fontRegex`) -/

/-- The literal head of `colorRegex` = `color:[^;]+;`. -/
def colorPat : List Char := ['c', 'o', 'l', 'o', 'r', ':']

/-- The literal head of `fontRegex` = `font-\w+:[^;]+;`. -/
def fontPat : List Char := ['f', 'o', 'n', 't', '-']

/-- Consume characters up to and including the next `;`; `none` if no `;`
remains (the regex body `[^;]+;` cannot complete). -/
def chompSemi : List Char → Option (List Char)
  | [] => none
  | c :: rest => if c = ';' then some rest else chompSemi rest

/-- The regex tail `[^;]+;`: at least one non-`;` character, then characters
up to and including the next `;`. Returns the remainder after the match. -/
def chompBody : List Char → Option (List Char)
  | [] => none
  | c :: rest => if c = ';' then none else chompSemi rest

/-- Go's `\w`: ASCII letters, digits and underscore. -/
def isWordChar (c : Char) : Bool := c.isAlphanum || c = '_'

/-- After the first word character of `\w+:`: consume the maximal word-char
run, require `:`, then match `[^;]+;`. -/
def chompWordRest : List Char → Option (List Char)
  | [] => none
  | c :: rest =>
    if isWordChar c then chompWordRest rest
    else if c = ':' then chompBody rest else none

/-- The regex tail `\w+:[^;]+;`: at least one word character to start. -/
def chompWordColon : List Char → Option (List Char)
  | [] => none
  | c :: rest => if isWordChar c then chompWordRest rest else none

/-- A match of `colorRegex` = `color:[^;]+;` at the head of the list; returns
the remainder after the match. -/
def matchColor (l : List Char) : Option (List Char) :=
  if colorPat.isPrefixOf l then chompBody (l.drop 6) else none

/-- A match of `fontRegex` = `font-\w+:[^;]+;` at the head of the list. -/
def matchFont (l : List Char) : Option (List Char) :=
  if fontPat.isPrefixOf l then chompWordColon (l.drop 5) else none

/-- Left-to-right scan deleting every leftmost non-overlapping match of `f`,
the semantics of Go's `Regexp.ReplaceAllString(s, "")`. The fuel argument is
initialized to the list length; a match always consumes at least one
character, so the fuel never runs out. -/
def scanWith (f : List Char → Option (List Char)) : Nat → List Char → List Char
  | 0, l => l
  | _ + 1, [] => []
  | fuel + 1, c :: rest =>
    match f (c :: rest) with
    | some r => scanWith f fuel r
    | none => c :: scanWith f fuel rest

/-- Model of `Regexp.ReplaceAllString(l, "")` for the pattern recognized by
`f`. -/
def replaceAll (f : List Char → Option (List Char)) (l : List Char) : List Char :=
  scanWith f l.length l

/-- Embedding of the style-attribute pass of `HtmlDoc.modifyContent`:
`val := attr.Val + ";"`, then `colorRegex.ReplaceAllString`, then
`fontRegex.ReplaceAllString`. -/
def processStyleChars (l : List Char) : List Char :=
  replaceAll matchFont (replaceAll matchColor (l ++ [';']))

/-- String-level form of the style-attribute rewrite. -/
def processStyleVal (v : String) : String := (processStyleChars v.data).asString

/-- Decidable "contains `pat` as a contiguous substring". -/
def hasSubstr (pat : List Char) : List Char → Bool
  | [] => pat.isPrefixOf []
  | c :: rest => pat.isPrefixOf (c :: rest) || hasSubstr pat rest

/-- Split a character list on `;` (the declaration boundaries of a style
value). -/
def splitSemi : List Char → List (List Char)
  | [] => [[]]
  | c :: rest =>
    if c = ';' then [] :: splitSemi rest
    else
      match splitSemi rest with
      | [] => [[c]]
      | seg :: segs => (c :: seg) :: segs

/-! ### Title/subtitle paragraph hiding -/

/-- The `HideStyle` constant of html_doc.go. -/
def HideStyle : String := "visibility:hidden;display:none"

/-- The generic style-attribute pass of `HtmlDoc.modifyContent`, applied to
every element node before the tag switch. -/
def modifyStyleAttrs (attrs : List (String × String)) : List (String × String) :=
  attrs.map fun a => if a.1 = "style" then (a.1, processStyleVal a.2) else a

/-- One step of the `isTitle`/`isSubtitle` detection loop of the `p` case:
as in the source, both the `title` and the `subtitle` comparison set the first
flag, and the second flag is never set. -/
def pFlagsStep (fl : Bool × Bool) (a : String × String) : Bool × Bool :=
  if a.1 = "class" then
    if a.2 = "title" then (true, fl.2)
    else if a.2 = "subtitle" then (true, fl.2)
    else fl
  else fl

/-- Does an attribute mark the element as a title or subtitle paragraph? -/
def isTitleClassAttr (a : String × String) : Bool :=
  a.1 == "class" && (a.2 == "title" || a.2 == "subtitle")

/-- Embedding of the `p` case of `HtmlDoc.modifyContent` (attribute level):
after the generic style pass, when the class is `title` or `subtitle`, the
hide directive is appended to every existing `style` attribute value; no
attribute is added or removed and the node itself is kept. -/
def modifyPElement (attrs : List (String × String)) : List (String × String) :=
  if (((modifyStyleAttrs attrs).foldl pFlagsStep (false, false)).1 ||
      ((modifyStyleAttrs attrs).foldl pFlagsStep (false, false)).2) then
    (modifyStyleAttrs attrs).map fun a =>
      if a.1 = "style" then (a.1, a.2 ++ ";" ++ HideStyle) else a
  else modifyStyleAttrs attrs

/-! ### The index grid: cells, rows, read and write -/

/-- Leap year in the proleptic Gregorian calendar, as Go's time package. -/
def isLeap (y : Int) : Bool := (y % 4 == 0 && !(y % 100 == 0)) || y % 400 == 0

/-- Days in a month, as validated by Go's `time.Parse`. -/
def daysInMonth (y m : Int) : Int :=
  if m = 2 then (if isLeap y then 29 else 28)
  else if m = 4 ∨ m = 6 ∨ m = 9 ∨ m = 11 then 30 else 31

/-- The numeric value of a decimal digit character. -/
def digitVal (c : Char) : Option Nat :=
  if c.isDigit then some (c.toNat - 48) else none

/-- Model of Go `time.Parse("02/01/2006", s)` at day precision: exactly
`dd/mm/yyyy` with two-digit day and month and four-digit year, with range
validation; the result is the date's sheet serial number. -/
def parseDayFormat (s : String) : Option Int :=
  match s.data with
  | [d1, d2, '/', m1, m2, '/', y1, y2, y3, y4] =>
    match digitVal d1, digitVal d2, digitVal m1, digitVal m2,
        digitVal y1, digitVal y2, digitVal y3, digitVal y4 with
    | some a, some b, some c, some d, some e, some f, some g, some h =>
      let day : Int := ((10 * a + b : Nat) : Int)
      let mon : Int := ((10 * c + d : Nat) : Int)
      let yr : Int := ((1000 * e + 100 * f + 10 * g + h : Nat) : Int)
      if 1 ≤ mon ∧ mon ≤ 12 ∧ 1 ≤ day ∧ day ≤ daysInMonth yr mon then
        some (serialOfCivil yr mon day)
      else none
    | _, _, _, _, _, _, _, _ => none
  | _ => none

/-- Model of `sheets.ExtendedValue`: the union member the code sets. -/
inductive ExtendedValue where
  | formulaValue (s : String)
  | numberValue (n : Int)
  | stringValue (s : String)
deriving Repr, DecidableEq

/-- Model of `sheets.CellData`: the user-entered value written by the code,
the number-format pattern of `UserEnteredFormat` when one is set, and the
service-computed `FormattedValue` read back by the code. -/
structure CellData where
  userEnteredValue : Option ExtendedValue
  numberFormatPattern : Option String
  formattedValue : String
deriving Repr, DecidableEq

instance : Inhabited CellData := ⟨⟨none, none, ""⟩⟩

/-- The `GoogleSheetIndexColumnMetadata` table: column names and widths. -/
def googleSheetIndexColumns : List (String × Int) :=
  [("Id", 350), ("Name", 300), ("Date", 100), ("Last modified", 100),
    ("Description", 800)]

/-- The header row written by `getHeaders` on sheet creation. -/
def headerRow : List CellData :=
  googleSheetIndexColumns.map fun c => ⟨some (ExtendedValue.stringValue c.1), none, c.1⟩

/-- The document URL built by `ToRowData`. -/
def docUrlOf (m : GoogleDocMetadata) : String :=
  "https://docs.google.com/document/d/" ++ m.id

/-- The `=HYPERLINK("url", "id")` formula string built by `ToRowData`. -/
def hyperlinkFormula (m : GoogleDocMetadata) : String :=
  "=HYPERLINK(" ++ "\"" ++ docUrlOf m ++ "\"" ++ ", " ++ "\"" ++ m.id ++ "\"" ++ ")"

/-- Embedding of `GoogleDocMetadata.ToRowData`: a clickable id cell, the name,
the two dates as serial numbers with the `dd/mm/yyyy` format, and the
description. Serial numbers stand for the float
`CreatedTime.Sub(GoogleSheetEpoch0).Hours()/24`, exact at day precision. -/
def toRowData (m : GoogleDocMetadata) : List CellData :=
  [⟨some (ExtendedValue.formulaValue (hyperlinkFormula m)), none, ""⟩,
    ⟨some (ExtendedValue.stringValue m.name), none, ""⟩,
    ⟨some (ExtendedValue.numberValue m.createdTime), some "dd/mm/yyyy", ""⟩,
    ⟨some (ExtendedValue.numberValue m.modifiedTime), some "dd/mm/yyyy", ""⟩,
    ⟨some (ExtendedValue.stringValue m.description), none, ""⟩]

def errParseCreated : String := "error parsing created date"

def errParseModified : String := "error parsing modified date"

def errMissingDescription : String := "missing description value"

/-- Embedding of `GoogleDocMetadata.ParseRowData`. The Go code indexes
`row.Values[2]`, `[3]`, `[0]` and `[1]` unconditionally, so a row with fewer
than four cells panics with an index-out-of-range error: that crash is
modelled by `none`. Otherwise the date cells are parsed (an unparseable date
becomes the zero time plus an error), id and name are taken verbatim, and the
description cell is taken only when the row reaches the full column count,
else an error is recorded. -/
def parseRowData (row : List CellData) : Option (GoogleDocMetadata × List String) :=
  if 4 ≤ row.length then
    let cr := match parseDayFormat (row.getD 2 default).formattedValue with
      | some t => (t, ([] : List String))
      | none => (goTimeZero, [errParseCreated])
    let mr := match parseDayFormat (row.getD 3 default).formattedValue with
      | some t => (t, ([] : List String))
      | none => (goTimeZero, [errParseModified])
    let dr := if 5 ≤ row.length then
        ((row.getD 4 default).formattedValue, ([] : List String))
      else ("", [errMissingDescription])
    some (⟨mr.1, cr.1, dr.1, (row.getD 0 default).formattedValue,
      (row.getD 1 default).formattedValue⟩, cr.2 ++ mr.2 ++ dr.2)
  else none

/-- One step of the `GetIndexSheet` read loop: parse the row (logging, not
propagating, its error list) and store the record under its id. -/
def insStep (acc : List (String × GoogleDocMetadata)) (row : List CellData) :
    Option (List (String × GoogleDocMetadata)) :=
  (parseRowData row).map fun p => mapInsert acc p.1.id p.1

/-- Embedding of the `GetIndexSheet`/`GetIndexMetadata` read: drop the header
row, parse each remaining row and key it by its parsed id; a row panic aborts
the whole read. -/
def getIndexRows (sheetRows : List (List CellData)) :
    Option (List (String × GoogleDocMetadata)) :=
  List.foldlM insStep ([] : List (String × GoogleDocMetadata)) (sheetRows.drop 1)

/-- The record a row parses to (`default` when the row panics). -/
def parsedRec (row : List CellData) : GoogleDocMetadata :=
  match parseRowData row with
  | some p => p.1
  | none => default

/-- The error list a row parses to (`[]` when the row panics). -/
def parsedErrs (row : List CellData) : List String :=
  match parseRowData row with
  | some p => p.2
  | none => []

/-- Helper cell holding only a formatted value, as the service returns for
operator-edited text cells. -/
def strCell (s : String) : CellData := ⟨none, none, s⟩

def rowGoodDates : List CellData :=
  [strCell "doc1", strCell "Title A", strCell "01/02/2020", strCell "03/04/2021",
    strCell "Desc A"]

def rowBadDates : List CellData :=
  [strCell "doc2", strCell "Title B", strCell "bad", strCell "also bad",
    strCell "Desc B"]

def rowShort : List CellData := [strCell "doc3", strCell "Title C", strCell "x"]

/-! ### Write-all: the batch update built by `UpdateIndexMetadata` -/

/-- The two batch requests `UpdateIndexMetadata` sends: resize the grid to
`1 + len(rows)` rows and `len(columns)` columns, and (when the record set is
non-empty — Go's `rows != nil`) overwrite the cells starting at row 1,
column 0. -/
structure GridUpdateRequests where
  rowCount : Nat
  colCount : Nat
  startRowIndex : Nat
  rows : Option (List (List CellData))
deriving Repr, DecidableEq

/-- Embedding of the request construction in `UpdateIndexMetadata`. -/
def updateIndexMetadataRequests (metadata : List GoogleDocMetadata) :
    GridUpdateRequests :=
  let rows := metadata.map toRowData
  ⟨1 + rows.length, googleSheetIndexColumns.length, 1,
    if rows.isEmpty then none else some rows⟩

def emptyCell : CellData := ⟨none, none, ""⟩

/-- Pad or truncate a row to the requested column count. -/
def setRowWidth (n : Nat) (row : List CellData) : List CellData :=
  row.take n ++ List.replicate (n - row.length) emptyCell

/-- Modelled from the spec: the grid collaborator's application of a resize
request followed by an overwrite of rows starting at `startRowIndex`
(`ReplaceGridContents`); the repository only constructs the requests, the
spreadsheet service applies them. -/
def applyGridRequests (grid : List (List CellData)) (r : GridUpdateRequests) :
    List (List CellData) :=
  let resized := (grid.take r.rowCount ++
    List.replicate (r.rowCount - grid.length) []).map (setRowWidth r.colCount)
  match r.rows with
  | none => resized
  | some rs => resized.take r.startRowIndex ++ rs ++
      resized.drop (r.startRowIndex + rs.length)

def rowDupId : List CellData :=
  [strCell "doc1", strCell "Title D", strCell "05/06/2021", strCell "07/08/2021",
    strCell "Desc D"]

def rowEmptyId : List CellData :=
  [strCell "", strCell "Title E", strCell "bad", strCell "bad", strCell "Desc E"]

/-! ### The grid's rendering of written cells (spec-modelled) and round trip -/

/-- Civil date (y, m, d) of a days-since-1970 count (Hinnant's
`civil_from_days` algorithm, floor division throughout). -/
def civilFromDays (z0 : Int) : Int × Int × Int :=
  let z := z0 + 719468
  let era := Int.fdiv z 146097
  let doe := z - era * 146097
  let yoe := Int.fdiv (doe - Int.fdiv doe 1460 + Int.fdiv doe 36524 - Int.fdiv doe 146096) 365
  let y := yoe + era * 400
  let doy := doe - (365 * yoe + Int.fdiv yoe 4 - Int.fdiv yoe 100)
  let mp := Int.fdiv (5 * doy + 2) 153
  let d := doy - Int.fdiv (153 * mp + 2) 5 + 1
  let mo := if mp < 10 then mp + 3 else mp - 9
  (if mo ≤ 2 then y + 1 else y, mo, d)

def pad2 (n : Int) : String := (if n < 10 then "0" else "") ++ n.toNat.repr

def pad4 (n : Int) : String :=
  (if n < 10 then "000" else if n < 100 then "00" else if n < 1000 then "0" else "") ++
    n.toNat.repr

/-- Modelled from the spec: the grid renders a date-formatted number cell as
its serial date in the `dd/mm/yyyy` pattern of `CellDateFormat`. -/
def renderSerialDate (serial : Int) : String :=
  let ymd := civilFromDays (serial - 25569)
  if 0 ≤ ymd.1 ∧ ymd.1 ≤ 9999 then
    pad2 ymd.2.2 ++ "/" ++ pad2 ymd.2.1 ++ "/" ++ pad4 ymd.1
  else "#VALUE!"

/-- Collect the double-quote-delimited segments of a character list (the
state holds the reversed current segment while inside quotes). -/
def quotedSegsAux : List Char → Option (List Char) → List (List Char)
  | [], none => []
  | [], some seg => [seg.reverse]
  | c :: rest, none =>
    if c = '"' then quotedSegsAux rest (some []) else quotedSegsAux rest none
  | c :: rest, some seg =>
    if c = '"' then seg.reverse :: quotedSegsAux rest none
    else quotedSegsAux rest (some (c :: seg))

def quotedSegments (l : List Char) : List (List Char) := quotedSegsAux l none

/-- Modelled from the spec: the grid shows a `=HYPERLINK("url", "label")`
formula cell as its display label, the second quoted argument. -/
def hyperlinkDisplayText (f : String) : String :=
  match quotedSegments f.data with
  | [_, label] => label.asString
  | _ => f

/-- Modelled from the spec: the service-computed `FormattedValue` of a written
cell — a string cell shows its string, a date-formatted number cell its
rendered date, a formula cell its display text. -/
def renderCell (c : CellData) : CellData :=
  ⟨c.userEnteredValue, c.numberFormatPattern,
    match c.userEnteredValue with
    | some (ExtendedValue.stringValue s) => s
    | some (ExtendedValue.numberValue n) =>
      if c.numberFormatPattern = some "dd/mm/yyyy" then renderSerialDate n else Int.repr n
    | some (ExtendedValue.formulaValue f) => hyperlinkDisplayText f
    | none => ""⟩

/-- The record read back from a written record's rendered row. -/
def readBackRec (m : GoogleDocMetadata) : GoogleDocMetadata :=
  parsedRec ((toRowData m).map renderCell)

/-- Round trip: write the record set over the empty (header-only) grid, let
the service render the cells, and read all rows back. -/
def indexRoundTrip (records : List GoogleDocMetadata) :
    Option (List (String × GoogleDocMetadata)) :=
  getIndexRows ((applyGridRequests [headerRow] (updateIndexMetadataRequests records)).map
    (fun row => row.map renderCell))

def sampleRecA : GoogleDocMetadata :=
  ⟨serialOfCivil 2021 4 3, serialOfCivil 2020 2 1, "First post", "doc1", "Title A"⟩

def sampleRecB : GoogleDocMetadata :=
  ⟨serialOfCivil 2021 8 7, serialOfCivil 2021 6 5, "Second post", "doc2", "Title B"⟩

example : epochDays = -25569 := by decide

example : goTimeZero = -693593 := by decide

/-- C1, counterexample: the claim says the merged record takes the index's
value for every field whenever it is non-empty, in particular the title; but
`UpdateWith` — the merge used by the current main — never copies the index's
name, so a non-empty index title is ignored. -/
theorem c1_counterexample :
    (⟨goTimeZero, goTimeZero, "", "doc1", "Index title"⟩ : GoogleDocMetadata).name ≠ "" ∧
    ((⟨goTimeZero, goTimeZero, "", "doc1", "Listing title"⟩ : GoogleDocMetadata).updateWith
        ⟨goTimeZero, goTimeZero, "", "doc1", "Index title"⟩).name ≠
      (⟨goTimeZero, goTimeZero, "", "doc1", "Index title"⟩ : GoogleDocMetadata).name := by
  constructor
  · decide
  · decide

/-- C1 (amended): per-field merge precedence. `UpdateWith` applies the
non-zero/non-empty precedence rule only to the created time and the
description, leaving id, title and last-modified time at the listing's values
unconditionally; `combineIndexAndFilesMetadata` applies the rule to all four
fields (title, created, modified, description). In both, an empty index value
never erases a populated listing value. -/
theorem c1_merge_per_field :
    ∀ (file md : GoogleDocMetadata),
      (file.updateWith md).id = file.id ∧
      (file.updateWith md).name = file.name ∧
      (file.updateWith md).modifiedTime = file.modifiedTime ∧
      (file.updateWith md).createdTime =
        (if timeIsZero md.createdTime then file.createdTime else md.createdTime) ∧
      (file.updateWith md).description =
        (if md.description = "" then file.description else md.description) ∧
      (combineOne [(file.id, md)] file).id = file.id ∧
      (combineOne [(file.id, md)] file).name =
        (if md.name = "" then file.name else md.name) ∧
      (combineOne [(file.id, md)] file).createdTime =
        (if timeIsZero md.createdTime then file.createdTime else md.createdTime) ∧
      (combineOne [(file.id, md)] file).modifiedTime =
        (if timeIsZero md.modifiedTime then file.modifiedTime else md.modifiedTime) ∧
      (combineOne [(file.id, md)] file).description =
        (if md.description = "" then file.description else md.description) := by
  intro file md
  cases h1 : timeIsZero md.createdTime <;>
    cases h2 : timeIsZero md.modifiedTime <;>
      by_cases h3 : md.description = "" <;>
        by_cases h4 : md.name = "" <;>
          simp [GoogleDocMetadata.updateWith, combineOne, mapLookup, h1, h2, h3, h4]

/-- C5: every heading of level 1 through 6 is renamed one level deeper; at the
boundary the behaviour is defined: a level-6 heading becomes the (non-standard)
`h7` element. -/
theorem c5_heading_level_bump :
    (∀ n : Nat, 1 ≤ n → n ≤ 6 →
      modifyHeading ("h" ++ Nat.repr n) = "h" ++ Nat.repr (n + 1)) ∧
    modifyHeading "h6" = "h7" := by
  constructor
  · intro n h1 h2
    interval_cases n <;> decide
  · decide

/-- Witness for C5 at a concrete heading level. -/
theorem c5_heading_level_bump_witness :
    modifyHeading ("h" ++ Nat.repr 2) = "h" ++ Nat.repr (2 + 1) :=
  c5_heading_level_bump.1 2 (by decide) (by decide)

/-- C9: the asset-path normalizer maps (prefix, id, relative path) to
`{prefix/}{id}-{baseName(path)}` for all string inputs, and the image rewrite
prepends `/`; with src `images/pic.png`, id `doc123` and empty prefix the
rewritten src is `/doc123-pic.png`, and with prefix `assets` it is
`/assets/doc123-pic.png`. -/
theorem c9_asset_path :
    (∀ i a, normalizedAssetPath "" i a = i ++ "-" ++ filepathBase a) ∧
    (∀ p i a, p ≠ "" →
      normalizedAssetPath p i a = (p ++ "/") ++ i ++ "-" ++ filepathBase a) ∧
    modifyImgAttrs "" "doc123" [("src", "images/pic.png")] =
      [("src", "/doc123-pic.png")] ∧
    modifyImgAttrs "assets" "doc123" [("src", "images/pic.png")] =
      [("src", "/assets/doc123-pic.png")] := by
  refine ⟨?_, ?_, ?_, ?_⟩
  · intro i a; simp [normalizedAssetPath]
  · intro p i a hp; simp [normalizedAssetPath, hp]
  · decide
  · decide

/-- Witness for C9 at a concrete non-empty prefix. -/
theorem c9_asset_path_witness :
    ("assets" : String) ≠ "" ∧
      normalizedAssetPath "assets" "doc123" "images/pic.png" =
        ("assets" ++ "/") ++ "doc123" ++ "-" ++ filepathBase "images/pic.png" :=
  ⟨by decide, c9_asset_path.2.1 "assets" "doc123" "images/pic.png" (by decide)⟩

lemma isPrefixOf_append_self (l t : List Char) : l.isPrefixOf (l ++ t) = true := by
  induction l with
  | nil => simp [List.isPrefixOf]
  | cons c cs ih => simp [List.isPrefixOf, ih]

lemma isSuffixOf_append_self (l w : List Char) : l.isSuffixOf (w ++ l) = true := by
  simp only [List.isSuffixOf, List.reverse_append]
  exact isPrefixOf_append_self l.reverse w.reverse

lemma prefix_through_semi {pat : List Char} (l : List Char) (hp : ';' ∉ pat)
    (h : pat.isPrefixOf (l ++ [';']) = true) : pat.isPrefixOf l = true := by
  induction pat generalizing l with
  | nil => simp [List.isPrefixOf]
  | cons p ps ih =>
    cases l with
    | nil =>
      simp only [List.nil_append, List.isPrefixOf, Bool.and_eq_true, beq_iff_eq] at h
      exact absurd h.1 (by intro hh; exact hp (hh ▸ List.mem_cons_self p ps))
    | cons a l' =>
      simp only [List.cons_append, List.isPrefixOf, Bool.and_eq_true] at h ⊢
      exact ⟨h.1, ih l' (fun hm => hp (List.mem_cons_of_mem p hm)) h.2⟩

lemma hasSubstr_append_semi {pat : List Char} (md : List Char) (hp : ';' ∉ pat)
    (h : hasSubstr pat md = false) : hasSubstr pat (md ++ [';']) = false := by
  induction md with
  | nil =>
    cases pat with
    | nil => simp [hasSubstr, List.isPrefixOf] at h
    | cons p ps =>
      have hpne : ¬ p = ';' := fun hh => hp (hh ▸ List.mem_cons_self p ps)
      simp only [List.nil_append, hasSubstr, List.isPrefixOf, Bool.or_eq_false_iff,
        Bool.and_eq_false_iff]
      constructor
      · left
        simp [beq_iff_eq, hpne]
      · trivial
  | cons c md' ih =>
    simp only [hasSubstr, Bool.or_eq_false_iff] at h
    have h2 := ih h.2
    simp only [List.cons_append, hasSubstr, Bool.or_eq_false_iff]
    refine ⟨?_, h2⟩
    cases hpc : pat.isPrefixOf (c :: (md' ++ [';'])) with
    | false => rfl
    | true =>
      have := prefix_through_semi (c :: md') hp (by simpa using hpc)
      rw [this] at h
      cases h.1

lemma matchColor_prefix {t r : List Char} (h : matchColor t = some r) :
    colorPat.isPrefixOf t = true := by
  cases hp : colorPat.isPrefixOf t with
  | true => rfl
  | false => simp [matchColor, hp] at h

lemma matchFont_prefix {t r : List Char} (h : matchFont t = some r) :
    fontPat.isPrefixOf t = true := by
  cases hp : fontPat.isPrefixOf t with
  | true => rfl
  | false => simp [matchFont, hp] at h

lemma scanWith_eq_self {f : List Char → Option (List Char)} {pat : List Char}
    (hpat : ∀ {t r : List Char}, f t = some r → pat.isPrefixOf t = true)
    {l : List Char} (h : hasSubstr pat l = false) : ∀ fuel, scanWith f fuel l = l := by
  induction l with
  | nil => intro fuel; cases fuel <;> rfl
  | cons c rest ih =>
    intro fuel
    cases fuel with
    | zero => rfl
    | succ fuel =>
      simp only [hasSubstr, Bool.or_eq_false_iff] at h
      have hm : f (c :: rest) = none := by
        cases hf : f (c :: rest) with
        | none => rfl
        | some r => rw [hpat hf] at h; cases h.1
      simp only [scanWith, hm]
      rw [ih h.2]

lemma scanWith_head_match {f : List Char → Option (List Char)} {c : Char}
    {t r : List Char} (h : f (c :: t) = some r) (fuel : Nat) :
    scanWith f (fuel + 1) (c :: t) = scanWith f fuel r := by
  simp only [scanWith, h]

lemma chompSemi_append {x : List Char} (r : List Char) (hx : ';' ∉ x) :
    chompSemi (x ++ ';' :: r) = some r := by
  induction x with
  | nil => simp [chompSemi]
  | cons c x' ih =>
    have hc : ¬ c = ';' := fun hh => hx (hh ▸ List.mem_cons_self c x')
    simp only [List.cons_append, chompSemi, if_neg hc]
    exact ih (fun hm => hx (List.mem_cons_of_mem c hm))

lemma chompBody_append {x : List Char} (r : List Char) (hx : ';' ∉ x)
    (hne : x ≠ []) : chompBody (x ++ ';' :: r) = some r := by
  cases x with
  | nil => cases hne rfl
  | cons c x' =>
    have hc : ¬ c = ';' := fun hh => hx (hh ▸ List.mem_cons_self c x')
    simp only [List.cons_append, chompBody, if_neg hc]
    exact chompSemi_append r (fun hm => hx (List.mem_cons_of_mem c hm))

lemma matchColor_exact {x : List Char} (r : List Char) (hx : ';' ∉ x)
    (hne : x ≠ []) : matchColor (colorPat ++ x ++ ';' :: r) = some r := by
  have hpre : colorPat.isPrefixOf (colorPat ++ (x ++ ';' :: r)) = true :=
    isPrefixOf_append_self _ _
  have hdrop : (colorPat ++ (x ++ ';' :: r)).drop 6 = x ++ ';' :: r := rfl
  simp only [matchColor, List.append_assoc, hpre, if_true, hdrop]
  exact chompBody_append r hx hne

lemma matchFont_weight_exact {x : List Char} (r : List Char) (hx : ';' ∉ x)
    (hne : x ≠ []) :
    matchFont (fontPat ++ 'w' :: 'e' :: 'i' :: 'g' :: 'h' :: 't' :: ':' :: (x ++ ';' :: r)) =
      some r := by
  have hpre : fontPat.isPrefixOf
      (fontPat ++ 'w' :: 'e' :: 'i' :: 'g' :: 'h' :: 't' :: ':' :: (x ++ ';' :: r)) = true :=
    isPrefixOf_append_self _ _
  have hdrop : (fontPat ++ 'w' :: 'e' :: 'i' :: 'g' :: 'h' :: 't' :: ':' ::
      (x ++ ';' :: r)).drop 5 = 'w' :: 'e' :: 'i' :: 'g' :: 'h' :: 't' :: ':' ::
      (x ++ ';' :: r) := rfl
  have hword : chompWordColon ('w' :: 'e' :: 'i' :: 'g' :: 'h' :: 't' :: ':' ::
      (x ++ ';' :: r)) = chompBody (x ++ ';' :: r) := rfl
  simp only [matchFont, hpre, if_true, hdrop, hword]
  exact chompBody_append r hx hne

lemma replaceAll_head_match {f : List Char → Option (List Char)} {l r : List Char}
    (h : f l = some r) (hl : l ≠ []) :
    replaceAll f l = scanWith f (l.length - 1) r := by
  cases l with
  | nil => cases hl rfl
  | cons c t =>
    show scanWith f (c :: t).length (c :: t) = _
    simp only [List.length_cons, Nat.add_sub_cancel]
    exact scanWith_head_match h t.length

lemma asString_data (s : String) : s.data.asString = s := by
  cases s
  rfl

lemma data_color_lit : ("color:" : String).data = colorPat := by decide

lemma data_fontweight_lit :
    ("font-weight:" : String).data =
      fontPat ++ ['w', 'e', 'i', 'g', 'h', 't', ':'] := by decide

lemma data_semi_lit : (";" : String).data = [';'] := by decide

lemma processStyle_color_head (x m : String) (hne : x.data ≠ []) (hx : ';' ∉ x.data)
    (hc : hasSubstr colorPat m.data = false) (hf : hasSubstr fontPat m.data = false) :
    processStyleVal ("color:" ++ x ++ ";" ++ m) = m ++ ";" := by
  have hcp : ';' ∉ colorPat := by decide
  have hfp : ';' ∉ fontPat := by decide
  have hdata : ("color:" ++ x ++ ";" ++ m).data ++ [';'] =
      colorPat ++ (x.data ++ ';' :: (m.data ++ [';'])) := by
    simp [String.data_append, data_color_lit, data_semi_lit, List.append_assoc, colorPat]
  have hmatch : matchColor (colorPat ++ (x.data ++ ';' :: (m.data ++ [';']))) =
      some (m.data ++ [';']) := matchColor_exact (m.data ++ [';']) hx hne
  have hcolor : replaceAll matchColor (("color:" ++ x ++ ";" ++ m).data ++ [';']) =
      m.data ++ [';'] := by
    rw [hdata, replaceAll_head_match hmatch (by simp [colorPat])]
    exact scanWith_eq_self (fun h => matchColor_prefix h)
      (hasSubstr_append_semi m.data hcp hc) _
  have hfont : replaceAll matchFont (m.data ++ [';']) = m.data ++ [';'] :=
    scanWith_eq_self (fun h => matchFont_prefix h)
      (hasSubstr_append_semi m.data hfp hf) _
  show (replaceAll matchFont (replaceAll matchColor
      (("color:" ++ x ++ ";" ++ m).data ++ [';']))).asString = m ++ ";"
  rw [hcolor, hfont]
  have : m.data ++ [';'] = (m ++ ";").data := by simp [String.data_append, data_semi_lit]
  rw [this, asString_data]

lemma processStyle_fontweight_head (x m : String) (hne : x.data ≠ [])
    (hx : ';' ∉ x.data)
    (hc : hasSubstr colorPat ("font-weight:" ++ x ++ ";" ++ m).data = false)
    (hf : hasSubstr fontPat m.data = false) :
    processStyleVal ("font-weight:" ++ x ++ ";" ++ m) = m ++ ";" := by
  have hcp : ';' ∉ colorPat := by decide
  have hfp : ';' ∉ fontPat := by decide
  have hdata : ("font-weight:" ++ x ++ ";" ++ m).data ++ [';'] =
      fontPat ++ 'w' :: 'e' :: 'i' :: 'g' :: 'h' :: 't' :: ':' ::
        (x.data ++ ';' :: (m.data ++ [';'])) := by
    simp [String.data_append, data_fontweight_lit, data_semi_lit, List.append_assoc,
      fontPat]
  have hcolor : replaceAll matchColor (("font-weight:" ++ x ++ ";" ++ m).data ++ [';']) =
      ("font-weight:" ++ x ++ ";" ++ m).data ++ [';'] :=
    scanWith_eq_self (fun h => matchColor_prefix h)
      (hasSubstr_append_semi _ hcp hc) _
  have hmatch : matchFont (fontPat ++ 'w' :: 'e' :: 'i' :: 'g' :: 'h' :: 't' :: ':' ::
      (x.data ++ ';' :: (m.data ++ [';']))) = some (m.data ++ [';']) :=
    matchFont_weight_exact (m.data ++ [';']) hx hne
  have hfont : replaceAll matchFont (("font-weight:" ++ x ++ ";" ++ m).data ++ [';']) =
      m.data ++ [';'] := by
    rw [hdata, replaceAll_head_match hmatch (by simp [fontPat])]
    exact scanWith_eq_self (fun h => matchFont_prefix h)
      (hasSubstr_append_semi m.data hfp hf) _
  show (replaceAll matchFont (replaceAll matchColor
      (("font-weight:" ++ x ++ ";" ++ m).data ++ [';']))).asString = m ++ ";"
  rw [hcolor, hfont]
  have : m.data ++ [';'] = (m ++ ";").data := by simp [String.data_append, data_semi_lit]
  rw [this, asString_data]

/-- C4, counterexample: the claim says every declaration that is not a
`color:`/`font-*` declaration survives character-for-character; but the
regexes run over the raw style string, so the `color:red;` inside
`background-color:red;` matches and the unrelated `background-color`
declaration is truncated to `background-` rather than left unchanged. -/
theorem c4_counterexample :
    processStyleVal "background-color:red;margin:0" = "background-margin:0;" ∧
    "background-color:red".data ∈ splitSemi ("background-color:red;margin:0").data ∧
    ("color:".data.isPrefixOf "background-color:red".data) = false ∧
    ("font-".data.isPrefixOf "background-color:red".data) = false ∧
    "background-color:red".data ∉
      splitSemi (processStyleVal "background-color:red;margin:0").data ∧
    hasSubstr "background-color".data
      (processStyleVal "background-color:red;margin:0").data = false := by
  refine ⟨by decide, by decide, by decide, by decide, by decide, by decide⟩

/-- C4 (amended): the rewriter appends `;` to the style value and then deletes
every leftmost non-overlapping substring matching `color:[^;]+;`, then every
one matching `font-\w+:[^;]+;`. A leading `color:X;` or `font-weight:Y;`
declaration is removed while a trailing portion containing neither pattern
survives (with a `;` appended); but the deletion acts on substrings, not
declarations, so a declaration merely containing the pattern (e.g.
`background-color:red;`) is truncated rather than preserved. -/
theorem c4_style_declarations :
    processStyleVal "color:red;margin:0" = "margin:0;" ∧
    processStyleVal "font-weight:bold;margin:0" = "margin:0;" ∧
    processStyleVal "background-color:red;margin:0" = "background-margin:0;" ∧
    (∀ x m : String, x.data ≠ [] → ';' ∉ x.data →
      hasSubstr colorPat m.data = false → hasSubstr fontPat m.data = false →
      processStyleVal ("color:" ++ x ++ ";" ++ m) = m ++ ";") ∧
    (∀ x m : String, x.data ≠ [] → ';' ∉ x.data →
      hasSubstr colorPat ("font-weight:" ++ x ++ ";" ++ m).data = false →
      hasSubstr fontPat m.data = false →
      processStyleVal ("font-weight:" ++ x ++ ";" ++ m) = m ++ ";") := by
  refine ⟨by decide, by decide, by decide, ?_, ?_⟩
  · intro x m hne hx hc hf
    exact processStyle_color_head x m hne hx hc hf
  · intro x m hne hx hc hf
    exact processStyle_fontweight_head x m hne hx hc hf

/-- Witness for C4 at a concrete color declaration and neutral tail. -/
theorem c4_style_declarations_witness :
    processStyleVal ("color:" ++ "blue" ++ ";" ++ "margin:0") = "margin:0" ++ ";" :=
  c4_style_declarations.2.2.2.1 "blue" "margin:0" (by decide) (by decide)
    (by decide) (by decide)

lemma pFlagsStep_fst (fl : Bool × Bool) (a : String × String) :
    (pFlagsStep fl a).1 = (fl.1 || isTitleClassAttr a) := by
  by_cases h1 : a.1 = "class" <;> by_cases h2 : a.2 = "title" <;>
    by_cases h3 : a.2 = "subtitle" <;>
      simp [pFlagsStep, isTitleClassAttr, h1, h2, h3]

lemma foldl_pFlags_fst (l : List (String × String)) :
    ∀ fl : Bool × Bool, (l.foldl pFlagsStep fl).1 = (fl.1 || l.any isTitleClassAttr) := by
  induction l with
  | nil => intro fl; simp
  | cons a l' ih =>
    intro fl
    simp only [List.foldl_cons, List.any_cons]
    rw [ih, pFlagsStep_fst, Bool.or_assoc]

lemma any_isTitle_modifyStyle (attrs : List (String × String)) :
    (modifyStyleAttrs attrs).any isTitleClassAttr = attrs.any isTitleClassAttr := by
  induction attrs with
  | nil => rfl
  | cons a l ih =>
    simp only [modifyStyleAttrs, List.map_cons, List.any_cons] at *
    rw [ih]
    congr 1
    by_cases h : a.1 = "style" <;> simp [isTitleClassAttr, h]

/-- C6, counterexample: the claim says the style value of every title
paragraph ends with the hide directive, including one carrying no style
attribute; but the rewrite only appends to existing style attributes, so a
`class="title"` paragraph without one is left entirely unchanged and no
hidden style is present. -/
theorem c6_counterexample :
    modifyPElement [("class", "title")] = [("class", "title")] ∧
    ((modifyPElement [("class", "title")]).any fun a =>
      a.1 == "style" && (";" ++ HideStyle).data.isSuffixOf a.2.data) = false := by
  refine ⟨by decide, by decide⟩

/-- C6 (amended): every paragraph whose class is `title` or `subtitle` is kept
(no attribute added or removed), every `style` attribute it does carry ends
with `;visibility:hidden;display:none` after the rewrite, and a title
paragraph carrying no style attribute is left unchanged — the hide directive
is only appended to existing style attributes. -/
theorem c6_title_paragraph_hidden (attrs : List (String × String))
    (hclass : attrs.any isTitleClassAttr = true) :
    (modifyPElement attrs).length = attrs.length ∧
    (∀ p ∈ modifyPElement attrs, p.1 = "style" →
      (";" ++ HideStyle).data.isSuffixOf p.2.data = true) ∧
    ((∀ p ∈ attrs, p.1 ≠ "style") → modifyPElement attrs = attrs) := by
  have hcond : (((modifyStyleAttrs attrs).foldl pFlagsStep (false, false)).1 ||
      ((modifyStyleAttrs attrs).foldl pFlagsStep (false, false)).2) = true := by
    rw [foldl_pFlags_fst, any_isTitle_modifyStyle, hclass]
    simp
  refine ⟨?_, ?_, ?_⟩
  · simp only [modifyPElement, hcond, if_true]
    simp [modifyStyleAttrs]
  · intro p hp hstyle
    simp only [modifyPElement, hcond, if_true] at hp
    obtain ⟨a, _, rfl⟩ := List.mem_map.mp hp
    by_cases h : a.1 = "style"
    · simp only [h, if_true]
      have : (a.2 ++ (";" ++ HideStyle)).data = a.2.data ++ (";" ++ HideStyle).data := by
        simp [String.data_append]
      simp [this, isSuffixOf_append_self]
    · simp only [h, if_false] at hstyle
  · intro hno
    have hid : modifyStyleAttrs attrs = attrs := by
      have : ∀ a ∈ attrs, (if a.1 = "style" then (a.1, processStyleVal a.2) else a) = a := by
        intro a ha
        simp [hno a ha]
      calc modifyStyleAttrs attrs = attrs.map id := List.map_congr_left this
        _ = attrs := List.map_id attrs
    simp only [modifyPElement, hid]
    have hid2 : (attrs.map fun a =>
        if a.1 = "style" then (a.1, a.2 ++ ";" ++ HideStyle) else a) = attrs := by
      have : ∀ a ∈ attrs, (if a.1 = "style" then (a.1, a.2 ++ ";" ++ HideStyle) else a) = a := by
        intro a ha
        simp [hno a ha]
      calc (attrs.map fun a => if a.1 = "style" then (a.1, a.2 ++ ";" ++ HideStyle) else a)
          = attrs.map id := List.map_congr_left this
        _ = attrs := List.map_id attrs
    rw [hid2]
    split <;> rfl

/-- C2: row-shape behaviour of the index-sheet read. Every row with at least
four cells parses to a record with the present fields populated — a
four-cell row is flagged with the missing-description error but still returns
id and name, and a row with unparseable dates is flagged but does not stop the
following rows from being read. However, the claim that *any* cell count
returns normally is wrong: the code indexes `Values[2]` unconditionally, so a
three-cell row panics (`none`) and the whole grid read aborts. -/
theorem c2_row_parse_robustness :
    (∀ (a b c d : CellData) (rest : List CellData),
      (parseRowData (a :: b :: c :: d :: rest)).isSome = true ∧
      (parsedRec (a :: b :: c :: d :: rest)).id = a.formattedValue ∧
      (parsedRec (a :: b :: c :: d :: rest)).name = b.formattedValue) ∧
    (∀ a b c d : CellData,
      parsedErrs [a, b, c, d] =
        (if (parseDayFormat c.formattedValue).isNone then [errParseCreated] else []) ++
        (if (parseDayFormat d.formattedValue).isNone then [errParseModified] else []) ++
        [errMissingDescription] ∧
      (parsedRec [a, b, c, d]).id = a.formattedValue ∧
      (parsedRec [a, b, c, d]).description = "") ∧
    (∀ (a b c d e : CellData) (rest : List CellData),
      (parsedRec (a :: b :: c :: d :: e :: rest)).description = e.formattedValue ∧
      errMissingDescription ∉ parsedErrs (a :: b :: c :: d :: e :: rest)) ∧
    parseRowData rowShort = none ∧
    getIndexRows [headerRow, rowBadDates, rowShort, rowGoodDates] = none ∧
    (getIndexRows [headerRow, rowBadDates, rowGoodDates]).map
      (fun out => out.map Prod.fst) = some ["doc2", "doc1"] := by
  refine ⟨?_, ?_, ?_, by decide, by decide, by decide⟩
  · intro a b c d rest
    have hlen : 4 ≤ (a :: b :: c :: d :: rest).length := by simp
    rcases hc : parseDayFormat c.formattedValue with _ | t1 <;>
      rcases hd : parseDayFormat d.formattedValue with _ | t2 <;>
        exact ⟨by simp [parseRowData, hlen, hc, hd],
          by simp [parsedRec, parseRowData, hlen, hc, hd],
          by simp [parsedRec, parseRowData, hlen, hc, hd]⟩
  · intro a b c d
    have hlen : 4 ≤ ([a, b, c, d] : List CellData).length := by simp
    have hlen5 : ¬ 5 ≤ ([a, b, c, d] : List CellData).length := by simp
    rcases hc : parseDayFormat c.formattedValue with _ | t1 <;>
      rcases hd : parseDayFormat d.formattedValue with _ | t2 <;>
        exact ⟨by simp [parsedErrs, parseRowData, hlen, hlen5, hc, hd],
          by simp [parsedRec, parseRowData, hlen, hlen5, hc, hd],
          by simp [parsedRec, parseRowData, hlen, hlen5, hc, hd]⟩
  · intro a b c d e rest
    have hlen : 4 ≤ (a :: b :: c :: d :: e :: rest).length := by simp
    have hlen5 : 5 ≤ (a :: b :: c :: d :: e :: rest).length := by simp
    rcases hc : parseDayFormat c.formattedValue with _ | t1 <;>
      rcases hd : parseDayFormat d.formattedValue with _ | t2 <;>
        refine ⟨by simp [parsedRec, parseRowData, hlen, hlen5, hc, hd], ?_⟩ <;>
          simp [parsedErrs, parseRowData, hlen, hlen5, hc, hd,
            errMissingDescription, errParseCreated, errParseModified]

lemma length_setRowWidth (n : Nat) (row : List CellData) :
    (setRowWidth n row).length = n := by
  simp only [setRowWidth, List.length_append, List.length_take, List.length_replicate]
  omega

lemma length_toRowData (m : GoogleDocMetadata) : (toRowData m).length = 5 := rfl

lemma resized_length (grid : List (List CellData)) (r : GridUpdateRequests) :
    ((grid.take r.rowCount ++
      List.replicate (r.rowCount - grid.length) []).map (setRowWidth r.colCount)).length
      = r.rowCount := by
  simp only [List.length_map, List.length_append, List.length_take, List.length_replicate]
  omega

/-- Characterization of the applied write: header slot preserved from the
resized grid, data rows exactly the supplied records. -/
lemma applyWrite_spec (grid : List (List CellData)) (metadata : List GoogleDocMetadata) :
    (applyGridRequests grid (updateIndexMetadataRequests metadata)).length =
      1 + metadata.length ∧
    (applyGridRequests grid (updateIndexMetadataRequests metadata)).drop 1 =
      metadata.map toRowData ∧
    (∀ row ∈ applyGridRequests grid (updateIndexMetadataRequests metadata),
      row.length = googleSheetIndexColumns.length) := by
  have hcols : googleSheetIndexColumns.length = 5 := rfl
  cases hm : metadata with
  | nil =>
    have hr : updateIndexMetadataRequests [] =
        ⟨1, googleSheetIndexColumns.length, 1, none⟩ := rfl
    simp only [hr, applyGridRequests]
    refine ⟨?_, ?_, ?_⟩
    · simpa using resized_length grid ⟨1, googleSheetIndexColumns.length, 1, none⟩
    · simp only [List.map_nil]
      exact List.drop_eq_nil_of_le
        (le_of_eq (resized_length grid ⟨1, googleSheetIndexColumns.length, 1, none⟩))
    · intro row hrow
      obtain ⟨row0, _, rfl⟩ := List.mem_map.mp hrow
      exact length_setRowWidth _ _
  | cons m0 ms =>
    have hne : ((m0 :: ms).map toRowData).isEmpty = false := rfl
    have hr : updateIndexMetadataRequests (m0 :: ms) =
        ⟨1 + ((m0 :: ms).map toRowData).length, googleSheetIndexColumns.length, 1,
          some ((m0 :: ms).map toRowData)⟩ := by
      simp [updateIndexMetadataRequests, hne]
    set rs := (m0 :: ms).map toRowData with hrs
    set resized := (grid.take (1 + rs.length) ++
      List.replicate ((1 + rs.length) - grid.length) []).map
        (setRowWidth googleSheetIndexColumns.length) with hresized
    have hreslen : resized.length = 1 + rs.length := by
      rw [hresized]
      exact resized_length grid ⟨1 + rs.length, googleSheetIndexColumns.length, 1, some rs⟩
    have happly : applyGridRequests grid (updateIndexMetadataRequests (m0 :: ms)) =
        resized.take 1 ++ rs ++ resized.drop (1 + rs.length) := by
      rw [hr]
      rfl
    have hdropnil : resized.drop (1 + rs.length) = [] :=
      List.drop_eq_nil_of_le (by rw [hreslen])
    have hhead : ∃ r0, resized.take 1 = [r0] ∧ r0 ∈ resized := by
      cases hres : resized with
      | nil =>
        exfalso
        rw [hres] at hreslen
        simp only [List.length_nil] at hreslen
        omega
      | cons r0 rest => exact ⟨r0, by simp, by simp⟩
    obtain ⟨r0, hr0, hr0mem⟩ := hhead
    refine ⟨?_, ?_, ?_⟩
    · rw [happly, hdropnil, hr0]
      simp only [List.append_nil, List.cons_append, List.nil_append, List.length_cons, hrs]
      simp only [List.length_map, List.length_cons]
      omega
    · rw [happly, hdropnil, hr0]
      simp [hrs]
    · intro row hrow
      rw [happly, hdropnil, hr0] at hrow
      simp only [List.append_nil, List.cons_append, List.nil_append, List.mem_cons] at hrow
      rcases hrow with h1 | h2
      · subst h1
        rw [hresized] at hr0mem
        obtain ⟨row0, _, rfl⟩ := List.mem_map.mp hr0mem
        exact length_setRowWidth _ _
      · rw [hrs] at h2
        obtain ⟨m1, _, rfl⟩ := List.mem_map.mp h2
        rw [length_toRowData, hcols]

/-- C8: the write-all operation resizes the grid to exactly `1 + len(records)`
rows of exactly the recognized column count and overwrites every data row from
the supplied set starting after the header; the resulting data region is
exactly the supplied records in order, so any record previously in the grid
but absent from the supplied set is gone — full-replace, not a patch. -/
theorem c8_write_all_full_replace :
    ∀ (grid : List (List CellData)) (metadata : List GoogleDocMetadata),
      (applyGridRequests grid (updateIndexMetadataRequests metadata)).length =
        1 + metadata.length ∧
      (applyGridRequests grid (updateIndexMetadataRequests metadata)).drop 1 =
        metadata.map toRowData ∧
      (∀ row ∈ applyGridRequests grid (updateIndexMetadataRequests metadata),
        row.length = googleSheetIndexColumns.length) :=
  fun grid metadata => applyWrite_spec grid metadata

/-! ### Map semantics of the read: one record per identifier, later rows win -/

lemma mapLookup_append_some {l l2 : List (String × GoogleDocMetadata)} {k : String}
    {v : GoogleDocMetadata} (h : mapLookup l k = some v) :
    mapLookup (l ++ l2) k = some v := by
  induction l with
  | nil => simp [mapLookup] at h
  | cons p rest ih =>
    by_cases hp : p.1 = k
    · simp only [mapLookup, hp, if_true] at h
      simp only [List.cons_append, mapLookup, hp, if_true]
      exact h
    · simp only [mapLookup, hp, if_false] at h
      simp only [List.cons_append, mapLookup, hp, if_false]
      exact ih h

lemma mapLookup_append_none {l l2 : List (String × GoogleDocMetadata)} {k : String}
    (h : mapLookup l k = none) : mapLookup (l ++ l2) k = mapLookup l2 k := by
  induction l with
  | nil => rfl
  | cons p rest ih =>
    by_cases hp : p.1 = k
    · simp only [mapLookup, hp, if_true] at h
      exact Option.noConfusion h
    · simp only [mapLookup, hp, if_false] at h
      simp only [List.cons_append, mapLookup, hp, if_false]
      exact ih h

lemma mapLookup_none_of_any_false {l : List (String × GoogleDocMetadata)} {k : String}
    (h : l.any (fun p => p.1 = k) = false) : mapLookup l k = none := by
  induction l with
  | nil => rfl
  | cons p rest ih =>
    simp only [List.any_cons, Bool.or_eq_false_iff] at h
    have hp : ¬ p.1 = k := by simpa using h.1
    simp only [mapLookup, hp, if_false]
    exact ih h.2

lemma lookup_map_replace_ne {l : List (String × GoogleDocMetadata)} {k : String}
    {v : GoogleDocMetadata} {k' : String} (hne : k' ≠ k) :
    mapLookup (l.map fun p => if p.1 = k then (k, v) else p) k' = mapLookup l k' := by
  induction l with
  | nil => rfl
  | cons p rest ih =>
    by_cases hp : p.1 = k
    · simp only [List.map_cons, hp, if_true, mapLookup]
      rw [if_neg (fun hh => hne hh.symm), if_neg (fun hh => hne hh.symm), ih]
    · simp only [List.map_cons, hp, if_false, mapLookup]
      by_cases hpk : p.1 = k' <;> simp [hpk, ih]

lemma lookup_map_replace_eq {l : List (String × GoogleDocMetadata)} {k : String}
    {v : GoogleDocMetadata} (h : l.any (fun p => p.1 = k) = true) :
    mapLookup (l.map fun p => if p.1 = k then (k, v) else p) k = some v := by
  induction l with
  | nil => simp at h
  | cons p rest ih =>
    by_cases hp : p.1 = k
    · simp [mapLookup, hp]
    · have h' : rest.any (fun p => p.1 = k) = true := by
        simp only [List.any_cons] at h
        simpa [hp] using h
      simp only [List.map_cons, hp, if_false, mapLookup]
      exact ih h'

lemma lookup_mapInsert (l : List (String × GoogleDocMetadata)) (k : String)
    (v : GoogleDocMetadata) (k' : String) :
    mapLookup (mapInsert l k v) k' = if k' = k then some v else mapLookup l k' := by
  by_cases hk : k' = k
  · subst hk
    simp only [if_pos rfl]
    cases ha : l.any (fun p => p.1 = k')
    · have hnone := mapLookup_none_of_any_false ha
      simp only [mapInsert, ha, Bool.false_eq_true, if_false]
      rw [mapLookup_append_none hnone]
      simp [mapLookup]
    · simp only [mapInsert, ha, if_true]
      exact lookup_map_replace_eq ha
  · simp only [if_neg hk]
    cases ha : l.any (fun p => p.1 = k)
    · simp only [mapInsert, ha, Bool.false_eq_true, if_false]
      cases hl : mapLookup l k'
      · rw [mapLookup_append_none hl]
        simp [mapLookup, Ne.symm hk, hl]
      · rw [mapLookup_append_some hl]
    · simp only [mapInsert, ha, if_true]
      exact lookup_map_replace_ne hk

lemma keys_map_replace (l : List (String × GoogleDocMetadata)) (k : String)
    (v : GoogleDocMetadata) :
    ((l.map fun p => if p.1 = k then (k, v) else p).map Prod.fst) = l.map Prod.fst := by
  induction l with
  | nil => rfl
  | cons p rest ih =>
    by_cases hp : p.1 = k <;> simp [hp, ih]

lemma nodup_keys_mapInsert (l : List (String × GoogleDocMetadata)) (k : String)
    (v : GoogleDocMetadata) (h : (l.map Prod.fst).Nodup) :
    ((mapInsert l k v).map Prod.fst).Nodup := by
  cases ha : l.any (fun p => p.1 = k)
  · have hk : k ∉ l.map Prod.fst := by
      intro hmem
      obtain ⟨p, hp, hpk⟩ := List.mem_map.mp hmem
      rw [List.any_eq_false] at ha
      exact absurd (by simpa using hpk) (by simpa using ha p hp)
    simp only [mapInsert, ha, Bool.false_eq_true, if_false, List.map_append, List.map_cons,
      List.map_nil]
    exact List.Nodup.append h (List.nodup_singleton k)
      (by simpa [List.disjoint_singleton] using hk)
  · simp only [mapInsert, ha, if_true, keys_map_replace]
    exact h

lemma mem_mapInsert {l : List (String × GoogleDocMetadata)} {k : String}
    {v : GoogleDocMetadata} {kv : String × GoogleDocMetadata}
    (h : kv ∈ mapInsert l k v) : kv ∈ l ∨ kv = (k, v) := by
  cases ha : l.any (fun p => p.1 = k)
  · simp only [mapInsert, ha, Bool.false_eq_true, if_false] at h
    simpa using List.mem_append.mp h
  · simp only [mapInsert, ha, if_true] at h
    obtain ⟨p, hp, hpe⟩ := List.mem_map.mp h
    by_cases hpk : p.1 = k
    · right
      rw [← hpe]
      simp [hpk]
    · left
      rw [← hpe]
      simpa [hpk] using hp

lemma getLast?_cons_orElse {α : Type} (m : α) (l : List α) (z : Option α) :
    ((m :: l).getLast? <|> z) = (l.getLast? <|> some m) := by
  cases l with
  | nil => simp
  | cons a l' =>
    rw [List.getLast?_cons_cons]
    cases hgl : (a :: l').getLast? with
    | none => simp [List.getLast?_eq_none_iff] at hgl
    | some w => simp

/-- Main fold characterization of the read loop: with every row parseable, the
read succeeds, its result maps each key to a record whose id is that key, keys
are distinct, and lookup returns the record of the *last* row carrying that
id, falling back to the accumulator. -/
lemma foldl_ins_spec (rows : List (List CellData)) :
    ∀ acc : List (String × GoogleDocMetadata),
      (∀ r ∈ rows, (parseRowData r).isSome = true) →
      (acc.map Prod.fst).Nodup →
      (∀ kv ∈ acc, kv.2.id = kv.1) →
      ∃ out, List.foldlM insStep acc rows = some out ∧
        (out.map Prod.fst).Nodup ∧
        (∀ kv ∈ out, kv.2.id = kv.1) ∧
        (∀ k, mapLookup out k =
          (((rows.map parsedRec).filter (fun m => m.id = k)).getLast? <|>
            mapLookup acc k)) := by
  induction rows with
  | nil =>
    intro acc _ hnd hinv
    exact ⟨acc, rfl, hnd, hinv, fun k => by simp⟩
  | cons row rest ih =>
    intro acc hsome hnd hinv
    obtain ⟨p, hp⟩ := Option.isSome_iff_exists.mp (hsome row (List.mem_cons_self row rest))
    have hpr : parsedRec row = p.1 := by simp [parsedRec, hp]
    have hstep : insStep acc row = some (mapInsert acc p.1.id p.1) := by
      simp [insStep, hp]
    have hfold : List.foldlM insStep acc (row :: rest) =
        List.foldlM insStep (mapInsert acc p.1.id p.1) rest := by
      simp [List.foldlM_cons, hstep]
    obtain ⟨out, hout, hndo, hinvo, hlook⟩ := ih (mapInsert acc p.1.id p.1)
      (fun r hr => hsome r (List.mem_cons_of_mem _ hr))
      (nodup_keys_mapInsert _ _ _ hnd)
      (fun kv hkv => by
        rcases mem_mapInsert hkv with h | h
        · exact hinv kv h
        · rw [h])
    refine ⟨out, by rw [hfold]; exact hout, hndo, hinvo, fun k => ?_⟩
    rw [hlook k, lookup_mapInsert]
    simp only [List.map_cons, hpr]
    by_cases hk : p.1.id = k
    · have hfilt : List.filter (fun m => decide (m.id = k)) (p.1 :: rest.map parsedRec) =
          p.1 :: List.filter (fun m => decide (m.id = k)) (rest.map parsedRec) := by
        simp [List.filter_cons, hk]
      rw [hfilt, if_pos hk.symm]
      exact (getLast?_cons_orElse p.1 _ _).symm
    · have hfilt : List.filter (fun m => decide (m.id = k)) (p.1 :: rest.map parsedRec) =
          List.filter (fun m => decide (m.id = k)) (rest.map parsedRec) := by
        simp [List.filter_cons, hk]
      rw [hfilt, if_neg (fun hh => hk hh.symm)]

/-- C10: read-all keys each parsed row by its identifier cell: the result has
exactly one record per distinct identifier value, every stored record's id
equals its key, and when several rows carry the same identifier (in
particular, rows whose identifier cell is empty, which all share the key "")
the later row's record is the one returned. -/
theorem c10_read_all_keyed (rows : List (List CellData))
    (h : ∀ r ∈ rows, (parseRowData r).isSome = true) :
    ∃ out, getIndexRows (headerRow :: rows) = some out ∧
      (out.map Prod.fst).Nodup ∧
      (∀ kv ∈ out, kv.2.id = kv.1) ∧
      (∀ k, mapLookup out k =
        ((rows.map parsedRec).filter (fun m => m.id = k)).getLast?) := by
  obtain ⟨out, hout, hnd, hinv, hlook⟩ :=
    foldl_ins_spec rows [] h (by simp) (by intro kv hkv; cases hkv)
  refine ⟨out, ?_, hnd, hinv, fun k => ?_⟩
  · simpa [getIndexRows] using hout
  · rw [hlook k]
    cases ((rows.map parsedRec).filter (fun m => m.id = k)).getLast? <;>
      simp [mapLookup]

/-- Witness for C10 at a concrete grid holding a duplicated identifier and an
empty-identifier row. -/
theorem c10_read_all_keyed_witness :
    (∀ r ∈ [rowGoodDates, rowDupId, rowEmptyId], (parseRowData r).isSome = true) ∧
      (∃ out, getIndexRows (headerRow :: [rowGoodDates, rowDupId, rowEmptyId]) = some out ∧
        (out.map Prod.fst).Nodup ∧
        (∀ kv ∈ out, kv.2.id = kv.1) ∧
        (∀ k, mapLookup out k =
          (([rowGoodDates, rowDupId, rowEmptyId].map parsedRec).filter
            (fun m => m.id = k)).getLast?)) :=
  ⟨by decide, c10_read_all_keyed [rowGoodDates, rowDupId, rowEmptyId] (by decide)⟩

lemma quotedSegsAux_append_none {l : List Char} (rest : List Char) (h : '"' ∉ l) :
    quotedSegsAux (l ++ rest) none = quotedSegsAux rest none := by
  induction l with
  | nil => rfl
  | cons c l' ih =>
    have hc : ¬ c = '"' := fun hh => h (hh ▸ List.mem_cons_self c l')
    simp only [List.cons_append, quotedSegsAux, if_neg hc]
    exact ih (fun hm => h (List.mem_cons_of_mem c hm))

lemma quotedSegsAux_append_some {l : List Char} (rest seg : List Char) (h : '"' ∉ l) :
    quotedSegsAux (l ++ rest) (some seg) =
      quotedSegsAux rest (some (l.reverse ++ seg)) := by
  induction l generalizing seg with
  | nil => simp
  | cons c l' ih =>
    have hc : ¬ c = '"' := fun hh => h (hh ▸ List.mem_cons_self c l')
    simp only [List.cons_append, quotedSegsAux, if_neg hc, List.append_eq]
    rw [ih _ (fun hm => h (List.mem_cons_of_mem c hm))]
    simp

lemma quotedSegsAux_quote_none (t : List Char) :
    quotedSegsAux ('"' :: t) none = quotedSegsAux t (some []) := by
  simp [quotedSegsAux]

lemma quotedSegsAux_quote_some (t seg : List Char) :
    quotedSegsAux ('"' :: t) (some seg) = seg.reverse :: quotedSegsAux t none := by
  simp [quotedSegsAux]

lemma data_quote_lit : ("\"" : String).data = ['"'] := by decide

lemma data_rparen_lit : (")" : String).data = [')'] := by decide

lemma hyperlinkDisplay_id (m : GoogleDocMetadata) (hq : '"' ∉ m.id.data) :
    hyperlinkDisplayText (hyperlinkFormula m) = m.id := by
  have hurl : '"' ∉ (docUrlOf m).data := by
    simp only [docUrlOf, String.data_append]
    intro hmem
    rcases List.mem_append.mp hmem with h | h
    · exact absurd h (by decide)
    · exact hq h
  have hlit1 : ('"' : Char) ∉ ("=HYPERLINK(" : String).data := by decide
  have hlit2 : ('"' : Char) ∉ (", " : String).data := by decide
  have hdata : (hyperlinkFormula m).data =
      ("=HYPERLINK(" : String).data ++ '"' :: ((docUrlOf m).data ++ '"' ::
        ((", " : String).data ++ '"' :: (m.id.data ++ '"' :: [')']))) := by
    simp [hyperlinkFormula, String.data_append, data_quote_lit, data_rparen_lit,
      List.append_assoc]
  have hseg : quotedSegments (hyperlinkFormula m).data = [(docUrlOf m).data, m.id.data] := by
    rw [hdata]
    simp only [quotedSegments]
    rw [quotedSegsAux_append_none _ hlit1, quotedSegsAux_quote_none,
      quotedSegsAux_append_some _ _ hurl, quotedSegsAux_quote_some,
      quotedSegsAux_append_none _ hlit2, quotedSegsAux_quote_none,
      quotedSegsAux_append_some _ _ hq, quotedSegsAux_quote_some]
    simp [quotedSegsAux]
  unfold hyperlinkDisplayText
  rw [hseg]
  exact asString_data m.id

lemma renderRow_eq (m : GoogleDocMetadata) :
    (toRowData m).map renderCell =
      [⟨some (ExtendedValue.formulaValue (hyperlinkFormula m)), none,
          hyperlinkDisplayText (hyperlinkFormula m)⟩,
        ⟨some (ExtendedValue.stringValue m.name), none, m.name⟩,
        ⟨some (ExtendedValue.numberValue m.createdTime), some "dd/mm/yyyy",
          renderSerialDate m.createdTime⟩,
        ⟨some (ExtendedValue.numberValue m.modifiedTime), some "dd/mm/yyyy",
          renderSerialDate m.modifiedTime⟩,
        ⟨some (ExtendedValue.stringValue m.description), none, m.description⟩] := rfl

lemma parse_rendered (m : GoogleDocMetadata) :
    (parseRowData ((toRowData m).map renderCell)).isSome = true ∧
    (readBackRec m).id = hyperlinkDisplayText (hyperlinkFormula m) ∧
    (readBackRec m).name = m.name ∧
    (readBackRec m).description = m.description := by
  simp only [readBackRec, renderRow_eq]
  rcases hc : parseDayFormat (renderSerialDate m.createdTime) with _ | t1 <;>
    rcases hd : parseDayFormat (renderSerialDate m.modifiedTime) with _ | t2 <;>
      exact ⟨by simp [parseRowData, hc, hd],
        by simp [parsedRec, parseRowData, hc, hd],
        by simp [parsedRec, parseRowData, hc, hd],
        by simp [parsedRec, parseRowData, hc, hd]⟩

/-- The read loop appends one fresh entry per row when all parsed ids are
distinct and absent from the accumulator. -/
lemma foldl_ins_append (rows : List (List CellData)) :
    ∀ acc : List (String × GoogleDocMetadata),
      (∀ r ∈ rows, (parseRowData r).isSome = true) →
      ((rows.map parsedRec).map (fun m => m.id)).Nodup →
      (∀ r ∈ rows, ∀ kv ∈ acc, (parsedRec r).id ≠ kv.1) →
      List.foldlM insStep acc rows =
        some (acc ++ rows.map (fun r => ((parsedRec r).id, parsedRec r))) := by
  induction rows with
  | nil =>
    intro acc _ _ _
    simp
  | cons row rest ih =>
    intro acc hsome hnd hfresh
    obtain ⟨p, hp⟩ := Option.isSome_iff_exists.mp (hsome row (List.mem_cons_self row rest))
    have hpr : parsedRec row = p.1 := by simp [parsedRec, hp]
    have hanyf : acc.any (fun kv => kv.1 = p.1.id) = false := by
      rw [List.any_eq_false]
      intro kv hkv
      simp only [decide_eq_true_eq]
      intro hh
      exact (hpr ▸ hfresh row (List.mem_cons_self row rest) kv hkv) hh.symm
    have hins : mapInsert acc p.1.id p.1 = acc ++ [(p.1.id, p.1)] := by
      simp [mapInsert, hanyf]
    have hstep : insStep acc row = some (acc ++ [(p.1.id, p.1)]) := by
      simp [insStep, hp, hins]
    have hnd' : ((rest.map parsedRec).map (fun m => m.id)).Nodup := by
      simp only [List.map_cons, List.nodup_cons] at hnd
      exact hnd.2
    have hhead : p.1.id ∉ (rest.map parsedRec).map (fun m => m.id) := by
      simp only [List.map_cons, List.nodup_cons, hpr] at hnd
      exact hnd.1
    have hfresh' : ∀ r ∈ rest, ∀ kv ∈ acc ++ [(p.1.id, p.1)], (parsedRec r).id ≠ kv.1 := by
      intro r hr kv hkv
      rcases List.mem_append.mp hkv with h | h
      · exact hfresh r (List.mem_cons_of_mem _ hr) kv h
      · have hkv2 : kv = (p.1.id, p.1) := by simpa using h
        rw [hkv2]
        intro hh
        have hh' : (parsedRec r).id = p.1.id := hh
        exact hhead (hh' ▸ List.mem_map_of_mem _ (List.mem_map_of_mem parsedRec hr))
    have hfold : List.foldlM insStep acc (row :: rest) =
        List.foldlM insStep (acc ++ [(p.1.id, p.1)]) rest := by
      simp [List.foldlM_cons, hstep]
    rw [hfold, ih (acc ++ [(p.1.id, p.1)])
      (fun r hr => hsome r (List.mem_cons_of_mem _ hr)) hnd' hfresh']
    simp [hpr, List.append_assoc]

/-- Writing to the empty (header-only) grid yields the header followed by
exactly the written rows. -/
lemma applyWrite_header (records : List GoogleDocMetadata) :
    applyGridRequests [headerRow] (updateIndexMetadataRequests records) =
      headerRow :: records.map toRowData := by
  have hsw : setRowWidth googleSheetIndexColumns.length headerRow = headerRow := by decide
  cases records with
  | nil => decide
  | cons m0 ms =>
    have hne : ((m0 :: ms).map toRowData).isEmpty = false := rfl
    have hr : updateIndexMetadataRequests (m0 :: ms) =
        ⟨1 + ((m0 :: ms).map toRowData).length, googleSheetIndexColumns.length, 1,
          some ((m0 :: ms).map toRowData)⟩ := by
      simp [updateIndexMetadataRequests, hne]
    rw [hr]
    set rs := (m0 :: ms).map toRowData with hrs
    have h1 : (1 + rs.length) = rs.length + 1 := by omega
    simp only [applyGridRequests, h1]
    have htk : ([headerRow] : List (List CellData)).take (rs.length + 1) = [headerRow] := by
      simp
    have hrep : (rs.length + 1) - ([headerRow] : List (List CellData)).length = rs.length := by
      simp
    rw [htk, hrep]
    simp only [List.map_append, List.map_cons, List.map_nil, hsw]
    have hdrop : (([headerRow] ++ (List.replicate rs.length ([] : List CellData)).map
        (setRowWidth googleSheetIndexColumns.length)).drop (rs.length + 1)) = [] := by
      refine List.drop_eq_nil_of_le ?_
      simp
    simp only [List.nil_append, List.cons_append] at hdrop ⊢
    rw [hdrop]
    simp

/-- C3: writing N records with distinct identifiers to the empty (header-only)
grid and reading all rows back yields exactly N records, each equal to its
input on identifier, title and description (dates are carried through the
grid's day-precision serial/`dd/mm/yyyy` encoding and are not asserted
beyond it). Identifiers are assumed quote-free, as required for the written
`=HYPERLINK` formula cell to display the identifier. -/
theorem c3_write_read_roundtrip (records : List GoogleDocMetadata)
    (hq : ∀ m ∈ records, '"' ∉ m.id.data)
    (hnd : (records.map (fun m => m.id)).Nodup) :
    ∃ out, indexRoundTrip records = some out ∧
      out.length = records.length ∧
      ∀ m ∈ records, (m.id, readBackRec m) ∈ out ∧
        (readBackRec m).id = m.id ∧
        (readBackRec m).name = m.name ∧
        (readBackRec m).description = m.description := by
  have hid : ∀ m ∈ records, (readBackRec m).id = m.id := fun m hm =>
    ((parse_rendered m).2.1).trans (hyperlinkDisplay_id m (hq m hm))
  have hgrid : (applyGridRequests [headerRow] (updateIndexMetadataRequests records)).map
      (fun row => row.map renderCell) =
      (headerRow.map renderCell) ::
        records.map (fun m => (toRowData m).map renderCell) := by
    rw [applyWrite_header]
    simp [List.map_map, Function.comp]
  set rows := records.map (fun m => (toRowData m).map renderCell) with hrows
  have hsome : ∀ r ∈ rows, (parseRowData r).isSome = true := by
    intro r hr
    rw [hrows] at hr
    obtain ⟨m, hm, rfl⟩ := List.mem_map.mp hr
    exact (parse_rendered m).1
  have hparsed : rows.map parsedRec = records.map readBackRec := by
    rw [hrows, List.map_map]
    rfl
  have hndids : ((rows.map parsedRec).map (fun m => m.id)).Nodup := by
    rw [hparsed, List.map_map]
    have heq : records.map ((fun m => m.id) ∘ readBackRec) = records.map (fun m => m.id) :=
      List.map_congr_left (fun m hm => hid m hm)
    rw [heq]
    exact hnd
  have hfold := foldl_ins_append rows [] hsome hndids (by intro r _ kv hkv; cases hkv)
  have hout : indexRoundTrip records =
      some (rows.map (fun r => ((parsedRec r).id, parsedRec r))) := by
    simp only [indexRoundTrip, hgrid, getIndexRows, List.drop_succ_cons, List.drop_zero]
    simpa using hfold
  refine ⟨_, hout, ?_, ?_⟩
  · simp [hrows]
  · intro m hm
    refine ⟨?_, hid m hm, (parse_rendered m).2.2.1, (parse_rendered m).2.2.2⟩
    have hmem : ((readBackRec m).id, readBackRec m) ∈
        rows.map (fun r => ((parsedRec r).id, parsedRec r)) := by
      rw [hrows]
      exact List.mem_map_of_mem _ (List.mem_map_of_mem _ hm)
    rw [hid m hm] at hmem
    exact hmem

/-- Witness for C3 at a concrete two-record set. -/
theorem c3_write_read_roundtrip_witness :
    ((∀ m ∈ [sampleRecA, sampleRecB], '"' ∉ m.id.data) ∧
      (([sampleRecA, sampleRecB].map (fun m => m.id)).Nodup)) ∧
      (∃ out, indexRoundTrip [sampleRecA, sampleRecB] = some out ∧
        out.length = ([sampleRecA, sampleRecB] : List GoogleDocMetadata).length ∧
        ∀ m ∈ [sampleRecA, sampleRecB], (m.id, readBackRec m) ∈ out ∧
          (readBackRec m).id = m.id ∧
          (readBackRec m).name = m.name ∧
          (readBackRec m).description = m.description) :=
  ⟨⟨by decide, by decide⟩,
    c3_write_read_roundtrip [sampleRecA, sampleRecB] (by decide) (by decide)⟩

/-- Witness for C6 at a concrete title paragraph that carries a style
attribute. -/
theorem c6_title_paragraph_hidden_witness :
    (modifyPElement [("class", "title"), ("style", "margin:0")]).length =
        ([("class", "title"), ("style", "margin:0")] : List (String × String)).length ∧
      (∀ p ∈ modifyPElement [("class", "title"), ("style", "margin:0")], p.1 = "style" →
        (";" ++ HideStyle).data.isSuffixOf p.2.data = true) ∧
      ((∀ p ∈ ([("class", "title"), ("style", "margin:0")] : List (String × String)),
          p.1 ≠ "style") →
        modifyPElement [("class", "title"), ("style", "margin:0")] =
          [("class", "title"), ("style", "margin:0")]) :=
  c6_title_paragraph_hidden [("class", "title"), ("style", "margin:0")] (by decide)

end Docblog
